import Mathlib

/-!
# Verification of the from-scratch notebook utilities of d2l-pytorch-colab

This development embeds, in Lean, the small from-scratch functions defined by
the notebooks of the repository (`corr2d`, `corr2d_multi_in`,
`corr2d_multi_in_out`, `corr2d_multi_in_out_1x1`, `trans_conv`, `pool2d`,
`tokenize`, `Vocab`, `count_corpus`) and proves the stated properties about
them.  Tensors of floats are modelled as rational-valued tensors: the
notebook arithmetic (sums, products, max, mean) is exact.
-/

namespace D2L

/-- A 2-dimensional tensor: a shape together with an entry function.
Only entries `data i j` with `i < shape0` and `j < shape1` are meaningful. -/
structure Tensor2 where
  shape0 : ℕ
  shape1 : ℕ
  data : ℕ → ℕ → ℚ

/-- The slice `X[i : i + h, j : j + w]` of a 2-D tensor. -/
def slice2 (X : Tensor2) (i h j w : ℕ) : Tensor2 :=
  ⟨h, w, fun a b => X.data (i + a) (j + b)⟩

/-- Elementwise product of two 2-D tensors (`X * K` on same-shape tensors). -/
def hadamard (A B : Tensor2) : Tensor2 :=
  ⟨A.shape0, A.shape1, fun i j => A.data i j * B.data i j⟩

/-- Embeds `T.sum()`: the sum of all entries of a 2-D tensor. -/
def tsum (T : Tensor2) : ℚ :=
  ∑ i in Finset.range T.shape0, ∑ j in Finset.range T.shape1, T.data i j

/-- Embeds `corr2d(X, K)` from `conv-layer.ipynb`: allocate a zero tensor of shape
`(X.shape[0] - h + 1, X.shape[1] - w + 1)` and assign each entry
`Y[i, j] = (X[i:i+h, j:j+w] * K).sum()`. -/
def corr2d (X K : Tensor2) : Tensor2 :=
  ⟨X.shape0 - K.shape0 + 1, X.shape1 - K.shape1 + 1,
    fun i j => tsum (hadamard (slice2 X i K.shape0 j K.shape1) K)⟩

/-- One slice-assignment step `Y[i:i+h, j:j+w] += c * K` of `trans_conv`:
entries `(p, q)` lying in the window at offset `(i, j)` gain `c * K[p-i, q-j]`. -/
def addWindow (K : Tensor2) (c : ℚ) (i j : ℕ) (Y : Tensor2) : Tensor2 :=
  ⟨Y.shape0, Y.shape1, fun p q =>
    if i ≤ p ∧ p < i + K.shape0 ∧ j ≤ q ∧ q < j + K.shape1 then
      Y.data p q + c * K.data (p - i) (q - j)
    else
      Y.data p q⟩

/-- The inner loop of `trans_conv`: for `j` in `range(X.shape[1])`,
`Y[i:i+h, j:j+w] += X[i, j] * K`. -/
def transConvRow (X K : Tensor2) (i : ℕ) (Y : Tensor2) : Tensor2 :=
  (List.range X.shape1).foldl (fun Y j => addWindow K (X.data i j) i j Y) Y

/-- Embeds `trans_conv(X, K)` from `transposed-conv.ipynb`: allocate a zero tensor of
shape `(X.shape[0] + h - 1, X.shape[1] + w - 1)` and for every `(i, j)` add
`X[i, j] * K` into the window `Y[i:i+h, j:j+w]`. -/
def trans_conv (X K : Tensor2) : Tensor2 :=
  (List.range X.shape0).foldl (fun Y i => transConvRow X K i Y)
    ⟨X.shape0 + K.shape0 - 1, X.shape1 + K.shape1 - 1, fun _ _ => 0⟩

/-- A 3-dimensional tensor (channels × height × width). -/
structure Tensor3 where
  shape0 : ℕ
  shape1 : ℕ
  shape2 : ℕ
  data : ℕ → ℕ → ℕ → ℚ

/-- A 4-dimensional tensor (output channels × input channels × height × width). -/
structure Tensor4 where
  shape0 : ℕ
  shape1 : ℕ
  shape2 : ℕ
  shape3 : ℕ
  data : ℕ → ℕ → ℕ → ℕ → ℚ

/-- Embeds `X[c]`: one channel of a 3-D tensor, as a 2-D tensor. -/
def channel (X : Tensor3) (c : ℕ) : Tensor2 :=
  ⟨X.shape1, X.shape2, fun i j => X.data c i j⟩

/-- Embeds `K[o]`: one output-channel kernel of a 4-D tensor, as a 3-D tensor. -/
def subkernel (K : Tensor4) (o : ℕ) : Tensor3 :=
  ⟨K.shape1, K.shape2, K.shape3, fun c i j => K.data o c i j⟩

/-- Embeds `corr2d_multi_in(X, K)` from `channels.ipynb`: iterate through the channel
dimension of `X` and `K` (a `zip`, hence `min` of the channel counts) and add
the per-channel `corr2d` results together. -/
def corr2d_multi_in (X K : Tensor3) : Tensor2 :=
  ⟨X.shape1 - K.shape1 + 1, X.shape2 - K.shape2 + 1,
    fun i j => ∑ c in Finset.range (min X.shape0 K.shape0),
      (corr2d (channel X c) (channel K c)).data i j⟩

/-- Embeds `corr2d_multi_in_out(X, K)` from `channels.ipynb`: stack the results of
`corr2d_multi_in(X, k)` for each `k` in the 0th dimension of `K`. -/
def corr2d_multi_in_out (X : Tensor3) (K : Tensor4) : Tensor3 :=
  ⟨K.shape0, X.shape1 - K.shape2 + 1, X.shape2 - K.shape3 + 1,
    fun o i j => (corr2d_multi_in X (subkernel K o)).data i j⟩

/-- Row-major flattening of a 3-D tensor: element `n` of `X.reshape(-1)`. -/
def flat3 (X : Tensor3) (n : ℕ) : ℚ :=
  X.data (n / (X.shape1 * X.shape2)) (n / X.shape2 % X.shape1) (n % X.shape2)

/-- Row-major flattening of a 4-D tensor: element `n` of `K.reshape(-1)`. -/
def flat4 (K : Tensor4) (n : ℕ) : ℚ :=
  K.data (n / (K.shape1 * K.shape2 * K.shape3))
    (n / (K.shape2 * K.shape3) % K.shape1)
    (n / K.shape3 % K.shape2)
    (n % K.shape3)

/-- The matrix product `torch.matmul(K.reshape((c_o, c_i)), X.reshape((c_i, h * w)))`
of `corr2d_multi_in_out_1x1`, at row `o` and column `n`: entry `(o, c)` of the
reshaped `K` is flat element `o * c_i + c` of `K`, and entry `(c, n)` of the
reshaped `X` is flat element `c * (h * w) + n` of `X`. -/
def mm1x1 (X : Tensor3) (K : Tensor4) (o n : ℕ) : ℚ :=
  ∑ c in Finset.range X.shape0,
    flat4 K (o * X.shape0 + c) * flat3 X (c * (X.shape1 * X.shape2) + n)

/-- Embeds `corr2d_multi_in_out_1x1(X, K)` from `channels.ipynb`: reshape `X` to
`(c_i, h * w)` and `K` to `(c_o, c_i)`, multiply the matrices, and reshape the
product back to `(c_o, h, w)`: entry `(o, i, j)` is flat element
`o * (h * w) + (i * w + j)` of the product matrix of shape `(c_o, h * w)`. -/
def corr2d_multi_in_out_1x1 (X : Tensor3) (K : Tensor4) : Tensor3 :=
  ⟨K.shape0, X.shape1, X.shape2, fun o i j =>
    mm1x1 X K
      ((o * (X.shape1 * X.shape2) + (i * X.shape2 + j)) / (X.shape1 * X.shape2))
      ((o * (X.shape1 * X.shape2) + (i * X.shape2 + j)) % (X.shape1 * X.shape2))⟩

/-- The entries of a 2-D tensor, row by row. -/
def entries (T : Tensor2) : List ℚ :=
  (List.range T.shape0).flatMap fun i =>
    (List.range T.shape1).map fun j => T.data i j

/-- Embeds `T.max()`: the largest entry of a (nonempty) 2-D tensor. -/
def tmax (T : Tensor2) : ℚ :=
  (entries T).maximum.unbot' 0

/-- Embeds `T.mean()`: the sum of the entries divided by their number. -/
def tmean (T : Tensor2) : ℚ :=
  tsum T / (T.shape0 * T.shape1)

/-- Embeds `pool2d(X, pool_size, mode)` from the pooling notebook: allocate a zero
tensor of shape `(X.shape[0] - p_h + 1, X.shape[1] - p_w + 1)` and assign each
entry the `max` of the window when `mode == 'max'`, the `mean` of the window
when `mode == 'avg'`, and leave it at zero for any other mode. -/
def pool2d (X : Tensor2) (ph pw : ℕ) (mode : String) : Tensor2 :=
  ⟨X.shape0 - ph + 1, X.shape1 - pw + 1, fun i j =>
    if mode = "max" then tmax (slice2 X i ph j pw)
    else if mode = "avg" then tmean (slice2 X i ph j pw)
    else 0⟩

/-- Embeds `torch.dot(x, x)` on length-`n` real vectors: the inner product,
from `autograd.ipynb`. -/
noncomputable def dot {n : ℕ} (x y : Fin n → ℝ) : ℝ :=
  ∑ i, x i * y i

/-- Embeds `y = 2 * torch.dot(x, x)` from `autograd.ipynb`. -/
noncomputable def yScalar {n : ℕ} (x : Fin n → ℝ) : ℝ :=
  2 * dot x x

/-- Modelled from the spec: `y.backward()` followed by reading `x.grad` is
external-framework autograd code; component `j` of the gradient it stores is
the derivative of `t ↦ yScalar (x with component j replaced by t)` at `x j`. -/
noncomputable def gradComponent {n : ℕ} (x : Fin n → ℝ) (j : Fin n) : ℝ :=
  deriv (fun t => yScalar (Function.update x j t)) (x j)

/-- One character of the grouping pass of Python's `str.split()` with no
separator: a whitespace character starts a new (possibly empty) group, any
other character is prepended to the current group. -/
def splitStep (c : Char) (acc : List (List Char)) : List (List Char) :=
  if c.isWhitespace then [] :: acc
  else
    match acc with
    | [] => [[c]]
    | w :: ws => (c :: w) :: ws

/-- The grouping pass of Python's `str.split()` with no separator, scanning
from the right. -/
def splitGroups (l : List Char) : List (List Char) :=
  l.foldr splitStep []

/-- Python's `line.split()`: whitespace-delimited words, empties dropped. -/
def pySplit (l : List Char) : List (List Char) :=
  (splitGroups l).filter fun w => !w.isEmpty

/-- The observable result of `tokenize`: the returned value (`none` models the
implicit `None` returned on the unknown-token-type path) together with the
lines printed. -/
structure TokenizeResult where
  value : Option (List (List (List Char)))
  printed : List String

/-- Embeds `tokenize(lines, token)` from `text-preprocessing.ipynb`: split each line
into word tokens when `token == 'word'`, into character tokens when
`token == 'char'`, and otherwise print an error message and return `None`. -/
def tokenize (lines : List (List Char)) (token : String) : TokenizeResult :=
  if token = "word" then ⟨some (lines.map pySplit), []⟩
  else if token = "char" then ⟨some (lines.map fun l => l.map fun c => [c]), []⟩
  else ⟨none, ["ERROR: unknown token type: " ++ token]⟩

/-- Embeds `tokenize(lines)` with the token-type argument omitted: the Python
parameter default is `'word'`. -/
def tokenizeDefault (lines : List (List Char)) : TokenizeResult :=
  tokenize lines "word"

/-- The keys of `collections.Counter(tokens)`, in first-occurrence order. -/
def counterKeys (ts : List String) : List String :=
  ts.foldl (fun acc t => if t ∈ acc then acc else acc ++ [t]) []

/-- Embeds `collections.Counter(tokens)` on a 1-D token list, as a key–count list. -/
def counterItems (ts : List String) : List (String × ℕ) :=
  (counterKeys ts).map fun t => (t, ts.count t)

/-- Embeds `count_corpus(tokens)` from `text-preprocessing.ipynb` on a 2-D token
list, as the notebook uses it: flatten the lines into one token list, then
count. -/
def count_corpus (tokens : List (List String)) : List (String × ℕ) :=
  counterItems tokens.flatten

/-- The dictionary assignments `token_to_idx[token] = len(idx_to_token) - 1`
made by the `Vocab.__init__` loop, in order. -/
def assigns : List String → ℕ → List (String × ℕ)
  | [], _ => []
  | t :: ts, i => (t, i) :: assigns ts (i + 1)

/-- Lookup in the dictionary built by the assignment list `ps`, a later
assignment to a key overriding an earlier one. -/
def dictGet : List (String × ℕ) → String → Option ℕ
  | [], _ => none
  | (k, v) :: rest, t =>
    match dictGet rest t with
    | some r => some r
    | none => if t = k then some v else none

/-- The state of a `Vocab` after `__init__`: the sorted frequency pairs, the
index-to-token list, the token-to-index dictionary (as its assignment list)
and the unknown-token index. -/
structure Vocab where
  token_freqs : List (String × ℕ)
  idx_to_token : List String
  tokenDict : List (String × ℕ)
  unk : ℕ

/-- Embeds `Vocab.__init__(tokens, min_freq, reserved_tokens)` from
`text-preprocessing.ipynb`, on a 2-D token list as in the notebook: count the
corpus, sort the counts by frequency (descending, stable), set
`uniq_tokens = ['<unk>'] + reserved_tokens` followed by the counted tokens
with `freq >= min_freq` that are not already in `uniq_tokens`, and build
`idx_to_token` / `token_to_idx` from it. -/
def vocabInit (tokens : List (List String)) (min_freq : ℕ)
    (reserved : List String) : Vocab :=
  let counter := count_corpus tokens
  let tf := counter.mergeSort fun a b => decide (b.2 ≤ a.2)
  let base := "<unk>" :: reserved
  let uniq := base ++
    (tf.filter fun p => decide (min_freq ≤ p.2) && !base.contains p.1).map Prod.fst
  ⟨tf, uniq, assigns uniq 0, 0⟩

/-- Embeds `Vocab.__getitem__` on a single token: `token_to_idx.get(t, self.unk)`. -/
def Vocab.getitem (v : Vocab) (t : String) : ℕ :=
  (dictGet v.tokenDict t).getD v.unk

/-- Embeds `Vocab.__getitem__` on a list of tokens: elementwise lookup. -/
def Vocab.getitemList (v : Vocab) (ts : List String) : List ℕ :=
  ts.map v.getitem

/-- Embeds `Vocab.to_tokens` on a single index: `idx_to_token[i]`, with `none`
modelling an out-of-range `IndexError`. -/
def Vocab.to_tokens (v : Vocab) (i : ℕ) : Option String :=
  v.idx_to_token.get? i

/-- Embeds `Vocab.__len__`: `len(idx_to_token)`. -/
def Vocab.len (v : Vocab) : ℕ :=
  v.idx_to_token.length

end D2L

namespace D2L

theorem corr2d_entry (X K : Tensor2) (i j : ℕ) :
    (corr2d X K).data i j =
      ∑ a in Finset.range K.shape0, ∑ b in Finset.range K.shape1,
        X.data (i + a) (j + b) * K.data a b := rfl

theorem transConvRow_aux (X K : Tensor2) (i p q : ℕ) :
    ∀ (m : ℕ) (Y : Tensor2),
      ((List.range m).foldl (fun Y j => addWindow K (X.data i j) i j Y) Y).data p q =
        Y.data p q + ∑ j in Finset.range m,
          (if i ≤ p ∧ p < i + K.shape0 ∧ j ≤ q ∧ q < j + K.shape1 then
            X.data i j * K.data (p - i) (q - j)
          else 0) := by
  intro m
  induction m with
  | zero => intro Y; simp
  | succ m ih =>
    intro Y
    rw [List.range_succ, List.foldl_append, List.foldl_cons, List.foldl_nil,
      Finset.sum_range_succ, addWindow]
    simp only
    split
    · rw [ih Y]; ring
    · rw [ih Y]; ring

theorem transConvRow_data (X K : Tensor2) (i p q : ℕ) (Y : Tensor2) :
    (transConvRow X K i Y).data p q =
      Y.data p q + ∑ j in Finset.range X.shape1,
        (if i ≤ p ∧ p < i + K.shape0 ∧ j ≤ q ∧ q < j + K.shape1 then
          X.data i j * K.data (p - i) (q - j)
        else 0) :=
  transConvRow_aux X K i p q X.shape1 Y

theorem transConvRow_shape0 (X K : Tensor2) (i : ℕ) (Y : Tensor2) :
    (transConvRow X K i Y).shape0 = Y.shape0 := by
  unfold transConvRow
  generalize List.range X.shape1 = l
  induction l generalizing Y with
  | nil => rfl
  | cons a l ih => rw [List.foldl_cons, ih]; rfl

theorem transConvRow_shape1 (X K : Tensor2) (i : ℕ) (Y : Tensor2) :
    (transConvRow X K i Y).shape1 = Y.shape1 := by
  unfold transConvRow
  generalize List.range X.shape1 = l
  induction l generalizing Y with
  | nil => rfl
  | cons a l ih => rw [List.foldl_cons, ih]; rfl

theorem trans_conv_aux (X K : Tensor2) (p q : ℕ) :
    ∀ (n : ℕ) (Y : Tensor2),
      ((List.range n).foldl (fun Y i => transConvRow X K i Y) Y).data p q =
        Y.data p q + ∑ i in Finset.range n, ∑ j in Finset.range X.shape1,
          (if i ≤ p ∧ p < i + K.shape0 ∧ j ≤ q ∧ q < j + K.shape1 then
            X.data i j * K.data (p - i) (q - j)
          else 0) := by
  intro n
  induction n with
  | zero => intro Y; simp
  | succ n ih =>
    intro Y
    rw [List.range_succ, List.foldl_append, List.foldl_cons, List.foldl_nil,
      Finset.sum_range_succ, transConvRow_data, ih Y]
    ring

theorem trans_conv_data (X K : Tensor2) (p q : ℕ) :
    (trans_conv X K).data p q =
      ∑ i in Finset.range X.shape0, ∑ j in Finset.range X.shape1,
        (if i ≤ p ∧ p < i + K.shape0 ∧ j ≤ q ∧ q < j + K.shape1 then
          X.data i j * K.data (p - i) (q - j)
        else 0) := by
  unfold trans_conv
  rw [trans_conv_aux]
  simp

theorem trans_conv_shape0 (X K : Tensor2) :
    (trans_conv X K).shape0 = X.shape0 + K.shape0 - 1 := by
  unfold trans_conv
  generalize hl : List.range X.shape0 = l
  clear hl
  generalize hY : (⟨X.shape0 + K.shape0 - 1, X.shape1 + K.shape1 - 1,
    fun _ _ => (0 : ℚ)⟩ : Tensor2) = Y
  have : Y.shape0 = X.shape0 + K.shape0 - 1 := by rw [← hY]
  clear hY
  induction l generalizing Y with
  | nil => exact this
  | cons a l ih =>
    rw [List.foldl_cons]
    exact ih _ (by rw [transConvRow_shape0]; exact this)

theorem mem_entries (T : Tensor2) (x : ℚ) :
    x ∈ entries T ↔ ∃ i, i < T.shape0 ∧ ∃ j, j < T.shape1 ∧ x = T.data i j := by
  simp only [entries, List.mem_flatMap, List.mem_map, List.mem_range]
  constructor
  · rintro ⟨i, hi, j, hj, hx⟩
    exact ⟨i, hi, j, hj, hx.symm⟩
  · rintro ⟨i, hi, j, hj, hx⟩
    exact ⟨i, hi, j, hj, hx.symm⟩

theorem tmax_spec (T : Tensor2) (h0 : 0 < T.shape0) (h1 : 0 < T.shape1) :
    tmax T ∈ entries T ∧ ∀ x ∈ entries T, x ≤ tmax T := by
  have hmem : T.data 0 0 ∈ entries T :=
    (mem_entries T _).mpr ⟨0, h0, 0, h1, rfl⟩
  have hlen : 0 < (entries T).length := List.length_pos.mpr (List.ne_nil_of_mem hmem)
  have hcoe := List.coe_maximum_of_length_pos hlen
  have heq : tmax T = (entries T).maximum_of_length_pos hlen := by
    unfold tmax
    rw [← hcoe, WithBot.unbot'_coe]
  rw [heq]
  exact ⟨List.maximum_of_length_pos_mem hlen,
    fun x hx => List.le_maximum_of_length_pos_of_mem hx hlen⟩

theorem tmean_slice (X : Tensor2) (i j ph pw : ℕ) :
    tmean (slice2 X i ph j pw) =
      (∑ a in Finset.range ph, ∑ b in Finset.range pw, X.data (i + a) (j + b)) /
        ((ph : ℚ) * pw) := by
  unfold tmean tsum slice2
  push_cast
  rfl

theorem mulAddDiv (o r m : ℕ) (h : r < m) : (o * m + r) / m = o := by
  rw [mul_comm, Nat.mul_add_div (by omega), Nat.div_eq_of_lt h, add_zero]

theorem mulAddMod (o r m : ℕ) (h : r < m) : (o * m + r) % m = r := by
  rw [mul_comm, Nat.mul_add_mod, Nat.mod_eq_of_lt h]

theorem corr2d_multi_in_out_data (X : Tensor3) (K : Tensor4) (o i j : ℕ)
    (hc : K.shape1 = X.shape0) (h2 : K.shape2 = 1) (h3 : K.shape3 = 1) :
    (corr2d_multi_in_out X K).data o i j =
      ∑ c in Finset.range X.shape0, K.data o c 0 0 * X.data c i j := by
  unfold corr2d_multi_in_out corr2d_multi_in subkernel channel
  simp only [corr2d_entry]
  simp only [hc, h2, h3, min_self]
  apply Finset.sum_congr rfl
  intro c _
  simp [Finset.sum_range_one, mul_comm]

theorem corr2d_multi_in_out_1x1_data (X : Tensor3) (K : Tensor4) (o i j : ℕ)
    (hc : K.shape1 = X.shape0) (h2 : K.shape2 = 1) (h3 : K.shape3 = 1)
    (hi : i < X.shape1) (hj : j < X.shape2) :
    (corr2d_multi_in_out_1x1 X K).data o i j =
      ∑ c in Finset.range X.shape0, K.data o c 0 0 * X.data c i j := by
  have hr : i * X.shape2 + j < X.shape1 * X.shape2 := by
    calc i * X.shape2 + j < i * X.shape2 + X.shape2 := by omega
    _ = (i + 1) * X.shape2 := by ring
    _ ≤ X.shape1 * X.shape2 := Nat.mul_le_mul_right _ hi
  unfold corr2d_multi_in_out_1x1
  simp only
  rw [mulAddDiv _ _ _ hr, mulAddMod _ _ _ hr]
  unfold mm1x1
  apply Finset.sum_congr rfl
  intro c hcm
  have hc' : c < X.shape0 := Finset.mem_range.mp hcm
  have h4 : flat4 K (o * X.shape0 + c) = K.data o c 0 0 := by
    unfold flat4
    rw [hc, h2, h3]
    simp only [mul_one, Nat.div_one, Nat.mod_one]
    rw [mulAddDiv _ _ _ hc', mulAddMod _ _ _ hc']
  have hn : c * (X.shape1 * X.shape2) + (i * X.shape2 + j) =
      (c * X.shape1 + i) * X.shape2 + j := by ring
  have h5 : flat3 X (c * (X.shape1 * X.shape2) + (i * X.shape2 + j)) =
      X.data c i j := by
    unfold flat3
    have e1 : (c * (X.shape1 * X.shape2) + (i * X.shape2 + j)) /
        (X.shape1 * X.shape2) = c := mulAddDiv _ _ _ hr
    have e2 : (c * (X.shape1 * X.shape2) + (i * X.shape2 + j)) /
        X.shape2 % X.shape1 = i := by
      rw [hn, mulAddDiv _ _ _ hj, mul_comm, Nat.mul_add_mod, Nat.mod_eq_of_lt hi]
    have e3 : (c * (X.shape1 * X.shape2) + (i * X.shape2 + j)) % X.shape2 = j := by
      rw [hn, mulAddMod _ _ _ hj]
    rw [e1, e2, e3]
  rw [h4, h5]

theorem trans_conv_shape1 (X K : Tensor2) :
    (trans_conv X K).shape1 = X.shape1 + K.shape1 - 1 := by
  unfold trans_conv
  generalize hl : List.range X.shape0 = l
  clear hl
  generalize hY : (⟨X.shape0 + K.shape0 - 1, X.shape1 + K.shape1 - 1,
    fun _ _ => (0 : ℚ)⟩ : Tensor2) = Y
  have : Y.shape1 = X.shape1 + K.shape1 - 1 := by rw [← hY]
  clear hY
  induction l generalizing Y with
  | nil => exact this
  | cons a l ih =>
    rw [List.foldl_cons]
    exact ih _ (by rw [transConvRow_shape1]; exact this)

end D2L

/-- C1: for every 2-D input `X` of shape `(n_h, n_w)` and kernel `K` of shape
`(k_h, k_w)` with `k_h ≤ n_h` and `k_w ≤ n_w`, `corr2d X K` has shape
`(n_h - k_h + 1, n_w - k_w + 1)` and its entry at `(i, j)` is
`∑ a < k_h, ∑ b < k_w, X[i+a, j+b] * K[a, b]`, the 2-D cross-correlation. -/
theorem C1_corr2d_cross_correlation (X K : D2L.Tensor2)
    (hh : K.shape0 ≤ X.shape0) (hw : K.shape1 ≤ X.shape1) :
    (D2L.corr2d X K).shape0 = X.shape0 - K.shape0 + 1 ∧
    (D2L.corr2d X K).shape1 = X.shape1 - K.shape1 + 1 ∧
    ∀ i j, i < (D2L.corr2d X K).shape0 → j < (D2L.corr2d X K).shape1 →
      (D2L.corr2d X K).data i j =
        ∑ a in Finset.range K.shape0, ∑ b in Finset.range K.shape1,
          X.data (i + a) (j + b) * K.data a b := by
  refine ⟨rfl, rfl, fun i j _ _ => D2L.corr2d_entry X K i j⟩

/-- Witness for C1 on the notebook's own validation example:
`X = [[0,1,2],[3,4,5],[6,7,8]]`, `K = [[0,1],[2,3]]`, output `[[19,25],[37,43]]`. -/
theorem C1_corr2d_cross_correlation_witness :
    (2 : ℕ) ≤ 3 ∧ (2 : ℕ) ≤ 3 ∧
      (D2L.corr2d
        ⟨3, 3, fun i j => ((3 * i + j : ℕ) : ℚ)⟩
        ⟨2, 2, fun i j => ((2 * i + j : ℕ) : ℚ)⟩).data 0 0 = 19 := by
  refine ⟨by decide, by decide, ?_⟩
  have h := C1_corr2d_cross_correlation
    ⟨3, 3, fun i j => ((3 * i + j : ℕ) : ℚ)⟩
    ⟨2, 2, fun i j => ((2 * i + j : ℕ) : ℚ)⟩ (by decide) (by decide)
  have h00 := h.2.2 0 0 (by decide) (by decide)
  rw [h00]
  simp [Finset.sum_range_succ]
  norm_num

/-- C2: for every 2-D input `X` of shape `(n_h, n_w)` and kernel `K` of shape
`(k_h, k_w)`, `trans_conv X K` has shape `(n_h + k_h - 1, n_w + k_w - 1)` and
`Y[p, q]` is the sum over all `(i, j)` with `i ≤ p < i + k_h` and
`j ≤ q < j + k_w` of `X[i, j] * K[p - i, q - j]`: the transposed convolution
obtained by adding `X[i, j] * K` into the window of `Y` at offset `(i, j)`. -/
theorem C2_trans_conv_transposed_convolution (X K : D2L.Tensor2) :
    (D2L.trans_conv X K).shape0 = X.shape0 + K.shape0 - 1 ∧
    (D2L.trans_conv X K).shape1 = X.shape1 + K.shape1 - 1 ∧
    ∀ p q, (D2L.trans_conv X K).data p q =
      ∑ ij in (Finset.range X.shape0 ×ˢ Finset.range X.shape1).filter
        (fun ij => ij.1 ≤ p ∧ p < ij.1 + K.shape0 ∧ ij.2 ≤ q ∧ q < ij.2 + K.shape1),
        X.data ij.1 ij.2 * K.data (p - ij.1) (q - ij.2) := by
  refine ⟨D2L.trans_conv_shape0 X K, D2L.trans_conv_shape1 X K, fun p q => ?_⟩
  rw [D2L.trans_conv_data, Finset.sum_filter, Finset.sum_product]

/-- C3: for every input `X` of shape `(c_i, h, w)` (with `h, w ≥ 1`) and every
kernel `K` of shape `(c_o, c_i, 1, 1)`, the matrix-multiplication
implementation `corr2d_multi_in_out_1x1` agrees with the per-channel
cross-correlation implementation `corr2d_multi_in_out` in shape and in every
entry, so the notebook's inline assertion that the sum of absolute
differences is below `1e-6` holds. -/
theorem C3_corr2d_1x1_matmul_equivalence (X : D2L.Tensor3) (K : D2L.Tensor4)
    (hc : K.shape1 = X.shape0) (h2 : K.shape2 = 1) (h3 : K.shape3 = 1)
    (hh : 0 < X.shape1) (hw : 0 < X.shape2) :
    (D2L.corr2d_multi_in_out_1x1 X K).shape0 = (D2L.corr2d_multi_in_out X K).shape0 ∧
    (D2L.corr2d_multi_in_out_1x1 X K).shape1 = (D2L.corr2d_multi_in_out X K).shape1 ∧
    (D2L.corr2d_multi_in_out_1x1 X K).shape2 = (D2L.corr2d_multi_in_out X K).shape2 ∧
    (∀ o i j, o < K.shape0 → i < X.shape1 → j < X.shape2 →
      (D2L.corr2d_multi_in_out_1x1 X K).data o i j =
        (D2L.corr2d_multi_in_out X K).data o i j) ∧
    ∑ o in Finset.range K.shape0, ∑ i in Finset.range X.shape1,
      ∑ j in Finset.range X.shape2,
        |(D2L.corr2d_multi_in_out_1x1 X K).data o i j -
          (D2L.corr2d_multi_in_out X K).data o i j| < 1 / 1000000 := by
  have hdata : ∀ o i j, i < X.shape1 → j < X.shape2 →
      (D2L.corr2d_multi_in_out_1x1 X K).data o i j =
        (D2L.corr2d_multi_in_out X K).data o i j := by
    intro o i j hi hj
    rw [D2L.corr2d_multi_in_out_1x1_data X K o i j hc h2 h3 hi hj,
      D2L.corr2d_multi_in_out_data X K o i j hc h2 h3]
  refine ⟨rfl, ?_, ?_, fun o i j _ hi hj => hdata o i j hi hj, ?_⟩
  · show X.shape1 = X.shape1 - K.shape2 + 1
    rw [h2]; omega
  · show X.shape2 = X.shape2 - K.shape3 + 1
    rw [h3]; omega
  · have hz : ∑ o in Finset.range K.shape0, ∑ i in Finset.range X.shape1,
        ∑ j in Finset.range X.shape2,
          |(D2L.corr2d_multi_in_out_1x1 X K).data o i j -
            (D2L.corr2d_multi_in_out X K).data o i j| = 0 := by
      apply Finset.sum_eq_zero
      intro o _
      apply Finset.sum_eq_zero
      intro i hi
      apply Finset.sum_eq_zero
      intro j hj
      rw [hdata o i j (Finset.mem_range.mp hi) (Finset.mem_range.mp hj)]
      simp
    rw [hz]
    norm_num

/-- Witness for C3 at `c_i = c_o = 1`, `h = w = 1`, `X ≡ 3`, `K ≡ 2`. -/
theorem C3_corr2d_1x1_matmul_equivalence_witness :
    ((⟨1, 1, 1, 1, fun _ _ _ _ => 2⟩ : D2L.Tensor4).shape1 =
        (⟨1, 1, 1, fun _ _ _ => 3⟩ : D2L.Tensor3).shape0 ∧
      (⟨1, 1, 1, 1, fun _ _ _ _ => 2⟩ : D2L.Tensor4).shape2 = 1 ∧
      (⟨1, 1, 1, 1, fun _ _ _ _ => 2⟩ : D2L.Tensor4).shape3 = 1 ∧
      0 < (⟨1, 1, 1, fun _ _ _ => 3⟩ : D2L.Tensor3).shape1 ∧
      0 < (⟨1, 1, 1, fun _ _ _ => 3⟩ : D2L.Tensor3).shape2) ∧
    (D2L.corr2d_multi_in_out_1x1 ⟨1, 1, 1, fun _ _ _ => 3⟩
        ⟨1, 1, 1, 1, fun _ _ _ _ => 2⟩).shape0 =
      (D2L.corr2d_multi_in_out ⟨1, 1, 1, fun _ _ _ => 3⟩
        ⟨1, 1, 1, 1, fun _ _ _ _ => 2⟩).shape0 :=
  ⟨⟨rfl, rfl, rfl, by decide, by decide⟩,
    (C3_corr2d_1x1_matmul_equivalence ⟨1, 1, 1, fun _ _ _ => 3⟩
      ⟨1, 1, 1, 1, fun _ _ _ _ => 2⟩ rfl rfl rfl (by decide) (by decide)).1⟩

/-- C10: for every 2-D input `X` of shape `(n_h, n_w)` and pool size
`(p_h, p_w)` with `1 ≤ p_h ≤ n_h` and `1 ≤ p_w ≤ n_w`, `pool2d X p_h p_w mode`
has shape `(n_h - p_h + 1, n_w - p_w + 1)`; with mode `"max"` each entry is
the maximum of the corresponding `p_h × p_w` window of `X`, with mode `"avg"`
it is the mean of that window, and for every other mode string `pool2d`
raises no error and silently returns the all-zeros tensor of that shape. -/
theorem C10_pool2d_modes (X : D2L.Tensor2) (ph pw : ℕ) (mode : String)
    (hp0 : 0 < ph) (hp1 : 0 < pw) (hph : ph ≤ X.shape0) (hpw : pw ≤ X.shape1) :
    (D2L.pool2d X ph pw mode).shape0 = X.shape0 - ph + 1 ∧
    (D2L.pool2d X ph pw mode).shape1 = X.shape1 - pw + 1 ∧
    (mode = "max" → ∀ i j,
      (∀ a b, a < ph → b < pw →
        X.data (i + a) (j + b) ≤ (D2L.pool2d X ph pw mode).data i j) ∧
      (∃ a b, a < ph ∧ b < pw ∧
        (D2L.pool2d X ph pw mode).data i j = X.data (i + a) (j + b))) ∧
    (mode = "avg" → ∀ i j, (D2L.pool2d X ph pw mode).data i j =
      (∑ a in Finset.range ph, ∑ b in Finset.range pw, X.data (i + a) (j + b)) /
        ((ph : ℚ) * pw)) ∧
    (mode ≠ "max" → mode ≠ "avg" → ∀ i j,
      (D2L.pool2d X ph pw mode).data i j = 0) := by
  refine ⟨rfl, rfl, ?_, ?_, ?_⟩
  · intro hm i j
    have hdata : (D2L.pool2d X ph pw mode).data i j =
        D2L.tmax (D2L.slice2 X i ph j pw) := by
      simp [D2L.pool2d, hm]
    have hspec := D2L.tmax_spec (D2L.slice2 X i ph j pw) hp0 hp1
    constructor
    · intro a b ha hb
      rw [hdata]
      exact hspec.2 _ ((D2L.mem_entries _ _).mpr ⟨a, ha, b, hb, rfl⟩)
    · rcases (D2L.mem_entries _ _).mp hspec.1 with ⟨a, ha, b, hb, hx⟩
      exact ⟨a, b, ha, hb, by rw [hdata]; exact hx⟩
  · intro hm i j
    have hdata : (D2L.pool2d X ph pw mode).data i j =
        D2L.tmean (D2L.slice2 X i ph j pw) := by
      simp [D2L.pool2d, hm]
    rw [hdata, D2L.tmean_slice]
  · intro hmax havg i j
    simp [D2L.pool2d, hmax, havg]

/-- Witness for C10 on a `2 × 2` input with `1 × 1` pooling in mode `"max"`. -/
theorem C10_pool2d_modes_witness :
    ((0 : ℕ) < 1 ∧ (0 : ℕ) < 1 ∧
      (1 : ℕ) ≤ (⟨2, 2, fun i j => ((2 * i + j : ℕ) : ℚ)⟩ : D2L.Tensor2).shape0 ∧
      (1 : ℕ) ≤ (⟨2, 2, fun i j => ((2 * i + j : ℕ) : ℚ)⟩ : D2L.Tensor2).shape1) ∧
    (D2L.pool2d ⟨2, 2, fun i j => ((2 * i + j : ℕ) : ℚ)⟩ 1 1 "max").shape0 = 2 :=
  ⟨⟨by decide, by decide, by decide, by decide⟩,
    (C10_pool2d_modes ⟨2, 2, fun i j => ((2 * i + j : ℕ) : ℚ)⟩ 1 1 "max"
      (by decide) (by decide) (by decide) (by decide)).1⟩

namespace D2L

theorem flatten_splitStep (c : Char) (acc : List (List Char)) :
    (splitStep c acc).flatten =
      if c.isWhitespace then acc.flatten else c :: acc.flatten := by
  by_cases hc : c.isWhitespace
  · simp [splitStep, hc]
  · cases acc with
    | nil => simp [splitStep, hc]
    | cons w ws => simp [splitStep, hc]

theorem splitGroups_flatten (l : List Char) :
    (splitGroups l).flatten = l.filter fun c => !c.isWhitespace := by
  induction l with
  | nil => rfl
  | cons c l ih =>
    show (splitStep c (splitGroups l)).flatten = _
    rw [flatten_splitStep]
    by_cases hc : c.isWhitespace
    · simp [hc, ih, List.filter_cons]
    · simp [hc, ih, List.filter_cons]

theorem splitGroups_chars (l : List Char) :
    ∀ w ∈ splitGroups l, ∀ c ∈ w, c.isWhitespace = false := by
  induction l with
  | nil => intro w hw; simp [splitGroups] at hw
  | cons c l ih =>
    intro w hw d hd
    have hw' : w ∈ splitStep c (splitGroups l) := hw
    unfold splitStep at hw'
    by_cases hc : c.isWhitespace
    · rw [if_pos hc] at hw'
      rcases List.mem_cons.mp hw' with h | h
      · subst h; simp at hd
      · exact ih w h d hd
    · rw [if_neg hc] at hw'
      cases hacc : splitGroups l with
      | nil =>
        rw [hacc] at hw'
        simp at hw'
        subst hw'
        simp at hd
        subst hd
        simpa using hc
      | cons w0 ws =>
        rw [hacc] at hw'
        rcases List.mem_cons.mp hw' with h | h
        · subst h
          rcases List.mem_cons.mp hd with h2 | h2
          · subst h2; simpa using hc
          · exact ih w0 (by rw [hacc]; exact List.mem_cons_self _ _) d h2
        · exact ih w (by rw [hacc]; exact List.mem_cons_of_mem _ h) d hd

theorem pySplit_words (l : List Char) :
    ∀ w ∈ pySplit l, w ≠ [] ∧ ∀ c ∈ w, c.isWhitespace = false := by
  intro w hw
  have h := List.mem_filter.mp hw
  refine ⟨?_, fun c hc => splitGroups_chars l w h.1 c hc⟩
  intro hnil
  subst hnil
  simpa using h.2

theorem flatten_filter_nonEmpty (gs : List (List Char)) :
    (gs.filter fun w => !w.isEmpty).flatten = gs.flatten := by
  induction gs with
  | nil => rfl
  | cons w ws ih =>
    cases w with
    | nil => simpa using ih
    | cons c cs => simp [List.filter_cons, ih]

theorem pySplit_flatten (l : List Char) :
    (pySplit l).flatten = l.filter fun c => !c.isWhitespace := by
  unfold pySplit
  rw [flatten_filter_nonEmpty, splitGroups_flatten]

end D2L

/-- C9: `tokenize(lines, 'word')` returns `[line.split() for line in lines]`:
each line becomes its list of whitespace-separated word tokens (every token
nonempty and whitespace-free, and the tokens joined together are exactly the
non-whitespace characters of the line, in order); `tokenize(lines, 'char')`
returns `[list(line) for line in lines]`, each line split into its individual
characters; omitting the token-type argument defaults to `'word'`. -/
theorem C9_tokenize_word_char (lines : List (List Char)) :
    (D2L.tokenize lines "word").value = some (lines.map D2L.pySplit) ∧
    (∀ l, ∀ w ∈ D2L.pySplit l, w ≠ [] ∧ ∀ c ∈ w, c.isWhitespace = false) ∧
    (∀ l, (D2L.pySplit l).flatten = l.filter fun c => !c.isWhitespace) ∧
    (D2L.tokenize lines "char").value =
      some (lines.map fun l => l.map fun c => [c]) ∧
    (∀ l : List Char, (l.map fun c => [c]).flatten = l) ∧
    D2L.tokenizeDefault lines = D2L.tokenize lines "word" := by
  refine ⟨?_, fun l => D2L.pySplit_words l, fun l => D2L.pySplit_flatten l,
    ?_, fun l => ?_, rfl⟩
  · simp [D2L.tokenize]
  · simp [D2L.tokenize]
  · induction l with
    | nil => rfl
    | cons c cs ih => simp [ih]

/-- C7 counterexample: on the token-type argument `"foo"` (neither `'word'`
nor `'char'`), the notebook-defined `tokenize` itself detects the invalid
argument, reports it by printing an error message, and returns `None` — no
external-framework exception is involved, contradicting the claim that no
notebook-defined function detects or reports an invalid argument. -/
theorem C7_tokenize_detects_unknown_type :
    (D2L.tokenize [['a']] "foo").printed = ["ERROR: unknown token type: foo"] ∧
    (D2L.tokenize [['a']] "foo").value = none := by
  constructor <;> simp [D2L.tokenize]

/-- C7 amended: no notebook-defined function handles an invalid argument,
except `tokenize`: on a token-type argument other than `'word'` and `'char'`
it detects the invalid argument itself, prints
`'ERROR: unknown token type: ' + token`, and returns `None` (it raises
nothing); on the two valid token types nothing is printed. -/
theorem C7_tokenize_error_reporting (lines : List (List Char)) (token : String)
    (h1 : token ≠ "word") (h2 : token ≠ "char") :
    (D2L.tokenize lines token).value = none ∧
    (D2L.tokenize lines token).printed =
      ["ERROR: unknown token type: " ++ token] ∧
    (D2L.tokenize lines "word").printed = [] ∧
    (D2L.tokenize lines "char").printed = [] := by
  refine ⟨?_, ?_, ?_, ?_⟩ <;> simp [D2L.tokenize, h1, h2]

/-- Witness for C7 (amended) at `lines = [['a']]`, `token = "foo"`. -/
theorem C7_tokenize_error_reporting_witness :
    ("foo" ≠ "word" ∧ "foo" ≠ "char") ∧
    (D2L.tokenize [['a']] "foo").value = none :=
  ⟨⟨by decide, by decide⟩,
    (C7_tokenize_error_reporting [['a']] "foo" (by decide) (by decide)).1⟩

/-- C4: for every real vector `x`, the gradient of `y = 2 * dot(x, x)`
with respect to `x` is `4 * x` in every component, so after `y.backward()`
the notebook's comparison `x.grad == 4 * x` is true elementwise (in the
notebook, `x = torch.arange(4.0)` and `x.grad` comes back `[0, 4, 8, 12]`). -/
theorem C4_grad_of_two_dot_xx (n : ℕ) (x : Fin n → ℝ) (j : Fin n) :
    D2L.gradComponent x j = 4 * x j := by
  classical
  have key : ∀ t : ℝ, D2L.yScalar (Function.update x j t) =
      2 * (t * t + ∑ i in Finset.univ.erase j, x i * x i) := by
    intro t
    unfold D2L.yScalar D2L.dot
    congr 1
    rw [← Finset.add_sum_erase _ _ (Finset.mem_univ j), Function.update_same]
    congr 1
    apply Finset.sum_congr rfl
    intro i hi
    rw [Function.update_noteq (Finset.ne_of_mem_erase hi)]
  unfold D2L.gradComponent
  rw [funext key]
  have hd : HasDerivAt
      (fun t : ℝ => 2 * (t * t + ∑ i in Finset.univ.erase j, x i * x i))
      (4 * x j) (x j) := by
    have h := (((hasDerivAt_id (x j)).mul (hasDerivAt_id (x j))).add_const
      (∑ i in Finset.univ.erase j, x i * x i)).const_mul (2 : ℝ)
    convert h using 1
    simp [id]
    ring
  exact hd.deriv

namespace D2L

theorem counterKeys_aux_nodup :
    ∀ (l acc : List String), acc.Nodup →
      (l.foldl (fun acc t => if t ∈ acc then acc else acc ++ [t]) acc).Nodup := by
  intro l
  induction l with
  | nil => intro acc h; exact h
  | cons a l ih =>
    intro acc h
    rw [List.foldl_cons]
    by_cases ha : a ∈ acc
    · simpa [ha] using ih acc h
    · have hacc : (acc ++ [a]).Nodup := by
        rw [List.nodup_append]
        refine ⟨h, List.nodup_singleton a, ?_⟩
        intro x hx hxa
        rw [List.mem_singleton] at hxa
        subst hxa
        exact ha hx
      simpa [ha] using ih _ hacc

theorem counterKeys_nodup (ts : List String) : (counterKeys ts).Nodup :=
  counterKeys_aux_nodup ts [] List.nodup_nil

theorem counterItems_count (ts : List String) :
    ∀ p ∈ counterItems ts, p.2 = ts.count p.1 := by
  intro p hp
  rcases List.mem_map.mp hp with ⟨t, _, rfl⟩
  rfl

theorem counterItems_keys (ts : List String) :
    (counterItems ts).map Prod.fst = counterKeys ts := by
  simp [counterItems, List.map_map, Function.comp_def]

theorem vocabInit_idx (tokens : List (List String)) (min_freq : ℕ)
    (reserved : List String) :
    (vocabInit tokens min_freq reserved).idx_to_token =
      ("<unk>" :: reserved) ++
        (((count_corpus tokens).mergeSort fun a b => decide (b.2 ≤ a.2)).filter
          fun p => decide (min_freq ≤ p.2) &&
            !("<unk>" :: reserved).contains p.1).map Prod.fst := rfl

theorem vocabInit_dict (tokens : List (List String)) (min_freq : ℕ)
    (reserved : List String) :
    (vocabInit tokens min_freq reserved).tokenDict =
      assigns (vocabInit tokens min_freq reserved).idx_to_token 0 := rfl

theorem vocabInit_nodup (tokens : List (List String)) (min_freq : ℕ)
    (reserved : List String) (hr : reserved.Nodup) (hu : "<unk>" ∉ reserved) :
    (vocabInit tokens min_freq reserved).idx_to_token.Nodup := by
  rw [vocabInit_idx]
  have hperm : ((count_corpus tokens).mergeSort fun a b =>
      decide (b.2 ≤ a.2)).Perm (count_corpus tokens) :=
    List.mergeSort_perm _ _
  have hkeys : (((count_corpus tokens).mergeSort fun a b =>
      decide (b.2 ≤ a.2)).map Prod.fst).Nodup := by
    have hck : ((count_corpus tokens).map Prod.fst).Nodup := by
      rw [count_corpus, counterItems_keys]
      exact counterKeys_nodup _
    exact (hperm.map Prod.fst).nodup_iff.mpr hck
  have hbase : ("<unk>" :: reserved).Nodup := List.nodup_cons.mpr ⟨hu, hr⟩
  have hcand : ((((count_corpus tokens).mergeSort fun a b =>
      decide (b.2 ≤ a.2)).filter fun p => decide (min_freq ≤ p.2) &&
        !("<unk>" :: reserved).contains p.1).map Prod.fst).Nodup :=
    hkeys.sublist ((List.filter_sublist _).map Prod.fst)
  rw [List.nodup_append]
  refine ⟨hbase, hcand, ?_⟩
  intro x hx hxc
  rcases List.mem_map.mp hxc with ⟨p, hp, rfl⟩
  have hcond := (List.mem_filter.mp hp).2
  simp at hcond
  rcases List.mem_cons.mp hx with he | hm
  · exact hcond.2.1 he
  · exact hcond.2.2 hm

theorem dictGet_not_mem (l : List String) (k : ℕ) (t : String) (h : t ∉ l) :
    dictGet (assigns l k) t = none := by
  induction l generalizing k with
  | nil => rfl
  | cons a l ih =>
    have h1 : t ∉ l := fun hm => h (List.mem_cons_of_mem _ hm)
    have h2 : t ≠ a := fun he => h (he ▸ List.mem_cons_self _ _)
    show dictGet ((a, k) :: assigns l (k + 1)) t = none
    simp [dictGet, ih (k + 1) h1, h2]

theorem dictGet_assigns_get (l : List String) (hnd : l.Nodup) :
    ∀ (k i : ℕ) (h : i < l.length),
      dictGet (assigns l k) (l.get ⟨i, h⟩) = some (k + i) := by
  induction l with
  | nil => intro k i h; exact absurd h (by simp)
  | cons a l ih =>
    intro k i h
    cases i with
    | zero =>
      have ha : a ∉ l := (List.nodup_cons.mp hnd).1
      show dictGet ((a, k) :: assigns l (k + 1)) a = some (k + 0)
      simp [dictGet, dictGet_not_mem l (k + 1) a ha]
    | succ i =>
      have hl : l.Nodup := (List.nodup_cons.mp hnd).2
      have h' : i < l.length := by simpa using h
      show dictGet ((a, k) :: assigns l (k + 1))
        (l.get ⟨i, h'⟩) = some (k + (i + 1))
      rw [show k + (i + 1) = (k + 1) + i by omega]
      have hrec := ih hl (k + 1) i h'
      simp only [List.get_eq_getElem] at hrec
      simp [dictGet, hrec]

end D2L

/-- C5 (amended): for every Vocab built from any token list and `min_freq`,
and reserved tokens that are pairwise distinct and do not include `'<unk>'`,
`idx_to_token` and `token_to_idx` are mutually inverse: each stored token
appears at exactly one index, `vocab[vocab.to_tokens(i)] == i` for every
`0 <= i < len(vocab)`, and `vocab.to_tokens(vocab[t]) == t` for every token
`t` in `idx_to_token`. -/
theorem C5_vocab_mutually_inverse (tokens : List (List String)) (min_freq : ℕ)
    (reserved : List String) (hr : reserved.Nodup) (hu : "<unk>" ∉ reserved) :
    (D2L.vocabInit tokens min_freq reserved).idx_to_token.Nodup ∧
    (∀ i (h : i < (D2L.vocabInit tokens min_freq reserved).idx_to_token.length),
      (D2L.vocabInit tokens min_freq reserved).getitem
        ((D2L.vocabInit tokens min_freq reserved).idx_to_token.get ⟨i, h⟩) = i) ∧
    (∀ t ∈ (D2L.vocabInit tokens min_freq reserved).idx_to_token,
      (D2L.vocabInit tokens min_freq reserved).to_tokens
        ((D2L.vocabInit tokens min_freq reserved).getitem t) = some t) := by
  have hnd := D2L.vocabInit_nodup tokens min_freq reserved hr hu
  refine ⟨hnd, ?_, ?_⟩
  · intro i h
    unfold D2L.Vocab.getitem
    rw [D2L.vocabInit_dict, D2L.dictGet_assigns_get _ hnd 0 i h]
    simp
  · intro t ht
    rcases List.mem_iff_get.mp ht with ⟨⟨i, h⟩, rfl⟩
    unfold D2L.Vocab.getitem D2L.Vocab.to_tokens
    rw [D2L.vocabInit_dict, D2L.dictGet_assigns_get _ hnd 0 i h]
    simp [List.get?_eq_get h]

/-- C5 counterexample: for the duplicated reserved-token list `['a', 'a']`
(an allowed argument under the claim's "any ... reserved tokens"), the token
`'a'` is stored at indices 1 and 2 of `idx_to_token` while `token_to_idx`
maps it to 2 only, so `vocab[vocab.to_tokens(1)] = 2 ≠ 1`. -/
theorem C5_counterexample_duplicate_reserved :
    (D2L.vocabInit [] 0 ["a", "a"]).to_tokens 1 = some "a" ∧
    (D2L.vocabInit [] 0 ["a", "a"]).getitem "a" = 2 := by
  constructor <;>
    simp [D2L.vocabInit, D2L.count_corpus, D2L.counterItems, D2L.counterKeys,
      D2L.Vocab.to_tokens, D2L.Vocab.getitem, D2L.assigns, D2L.dictGet]

/-- Witness for C5 (amended) with reserved tokens `['r']`. -/
theorem C5_vocab_mutually_inverse_witness :
    ((["r"] : List String).Nodup ∧ "<unk>" ∉ (["r"] : List String)) ∧
    (D2L.vocabInit [] 0 ["r"]).idx_to_token.Nodup :=
  ⟨⟨by decide, by decide⟩,
    (C5_vocab_mutually_inverse [] 0 ["r"] (by decide) (by decide)).1⟩

/-- C6: for every Vocab, token lookup is total and never raises:
`idx_to_token[0]` is `'<unk>'` and `vocab.unk` is 0; every token absent from
the vocabulary — never stored, in particular dropped for having corpus
frequency below `min_freq` while not reserved — maps to 0, the unknown-token
index; a list argument is mapped elementwise under the same rule; and the
reserved tokens occupy indices 1 through `len(reserved_tokens)` in the given
order. -/
theorem C6_vocab_unknown_token_total (tokens : List (List String))
    (min_freq : ℕ) (reserved : List String) :
    (D2L.vocabInit tokens min_freq reserved).unk = 0 ∧
    (D2L.vocabInit tokens min_freq reserved).to_tokens 0 = some "<unk>" ∧
    (∀ t, t ∉ (D2L.vocabInit tokens min_freq reserved).idx_to_token →
      (D2L.vocabInit tokens min_freq reserved).getitem t = 0) ∧
    (∀ t, tokens.flatten.count t < min_freq → t ≠ "<unk>" → t ∉ reserved →
      (D2L.vocabInit tokens min_freq reserved).getitem t = 0) ∧
    (∀ ts, (D2L.vocabInit tokens min_freq reserved).getitemList ts =
      ts.map (D2L.vocabInit tokens min_freq reserved).getitem) ∧
    (∀ i (h : i < reserved.length),
      (D2L.vocabInit tokens min_freq reserved).to_tokens (1 + i) =
        some (reserved.get ⟨i, h⟩)) := by
  have habs : ∀ t, t ∉ (D2L.vocabInit tokens min_freq reserved).idx_to_token →
      (D2L.vocabInit tokens min_freq reserved).getitem t = 0 := by
    intro t ht
    unfold D2L.Vocab.getitem
    rw [D2L.vocabInit_dict, D2L.dictGet_not_mem _ _ _ ht]
    rfl
  refine ⟨rfl, rfl, habs, ?_, fun ts => rfl, ?_⟩
  · intro t hcount hunk hres
    apply habs
    rw [D2L.vocabInit_idx]
    intro hmem
    rcases List.mem_append.mp hmem with hb | hc
    · rcases List.mem_cons.mp hb with he | hm
      · exact hunk he
      · exact hres hm
    · rcases List.mem_map.mp hc with ⟨p, hp, rfl⟩
      have hptf := (List.mem_filter.mp hp).1
      have hcond := (List.mem_filter.mp hp).2
      have hfreq : min_freq ≤ p.2 := by
        rcases Bool.and_eq_true_iff.mp hcond with ⟨h1, _⟩
        exact of_decide_eq_true h1
      have hmemci : p ∈ D2L.counterItems tokens.flatten :=
        (List.mergeSort_perm (D2L.count_corpus tokens) _).subset hptf
      have hcnt := D2L.counterItems_count tokens.flatten p hmemci
      rw [hcnt] at hfreq
      omega
  · intro i h
    unfold D2L.Vocab.to_tokens
    rw [D2L.vocabInit_idx, List.cons_append, Nat.add_comm 1 i]
    rw [List.get?_cons_succ, List.get?_eq_getElem?, List.getElem?_append_left h, List.getElem?_eq_getElem h]
    rfl

/-- Witness for C6 on the empty corpus with no reserved tokens: the absent
token `'z'` maps to 0. -/
theorem C6_vocab_unknown_token_total_witness :
    ("z" ∉ (D2L.vocabInit [] 0 []).idx_to_token) ∧
    (D2L.vocabInit [] 0 []).getitem "z" = 0 :=
  ⟨by
    simp [D2L.vocabInit, D2L.count_corpus, D2L.counterItems, D2L.counterKeys],
   (C6_vocab_unknown_token_total [] 0 []).2.2.1 "z" (by
    simp [D2L.vocabInit, D2L.count_corpus, D2L.counterItems, D2L.counterKeys])⟩

/-- Witness for C9 on the line `"a b"`: the word token `['a']` is produced and
is nonempty and whitespace-free. -/
theorem C9_tokenize_word_char_witness :
    (['a'] ∈ D2L.pySplit ['a', ' ', 'b']) ∧
    (['a'] ≠ [] ∧ ∀ c ∈ ['a'], c.isWhitespace = false) :=
  ⟨by decide, (C9_tokenize_word_char []).2.1 ['a', ' ', 'b'] ['a'] (by decide)⟩
